import Mathlib

/-!
# envoy-initializer: `initializeDeployment`

A shallow embedding of `src/envoy-initializer/main.go`, lines 143-200.

Go slices are modelled with explicit headers (`Slice`) over a heap of backing
arrays, because the program builds its desired object with `append` over
slices of the delivered object; what is shared and what is overwritten is part
of its behaviour.  The external collaborators (`json.Marshal`,
`strategicpatch.CreateTwoWayMergePatch`, the cluster's `Update` and `Patch`)
are parameters, and every call made to them is recorded in a trace.
-/

namespace EnvoyInitializer

/-! ## Go slices over a heap of backing arrays -/

/-- Go slice header: backing array `arr`, first cell `off`, length and capacity. -/
structure Slice where
  arr : Nat
  off : Nat
  len : Nat
  cap : Nat
deriving DecidableEq, Repr

/-- The backing arrays of one element type, addressed by position. -/
abbrev Heap (α : Type) := List (List α)

/-- The cells of backing array `a` (no cells when `a` was never allocated). -/
def Heap.cells {α : Type} (h : Heap α) (a : Nat) : List α := h.getD a []

/-- The elements a slice denotes: `len` cells of its array starting at `off`. -/
def Heap.read {α : Type} (h : Heap α) (s : Slice) : List α :=
  ((h.cells s.arr).drop s.off).take s.len

/-- Go `s[i]`: `none` stands for the run-time panic "index out of range". -/
def Heap.index {α : Type} (h : Heap α) (s : Slice) (i : Nat) : Option α :=
  if i < s.len then (h.cells s.arr)[s.off + i]? else none

/-- Go `s[lo:hi]`: same array, `none` stands for "slice bounds out of range". -/
def Slice.reslice (s : Slice) (lo hi : Nat) : Option Slice :=
  if lo ≤ hi ∧ hi ≤ s.cap then
    some { arr := s.arr, off := s.off + lo, len := hi - lo, cap := s.cap - lo }
  else none

/-- Overwrite the cells of `l` from position `i` on with `xs`. -/
def writeAt {α : Type} (l : List α) (i : Nat) (xs : List α) : List α :=
  l.take i ++ xs ++ l.drop (i + xs.length)

/-- Go `append(s, xs...)`.  When the elements fit in the capacity of `s` they
are written into the backing array of `s`, right after its last element, and
the result shares that array.  Otherwise a fresh array is allocated (Go leaves
its capacity to the runtime; the program never observes it, so the model takes
exactly the needed length).  `xs` are the elements of the source, read before
anything is written, as the runtime's overlapping-safe copy does. -/
def goAppend {α : Type} (h : Heap α) (s : Slice) (xs : List α) : Heap α × Slice :=
  if s.len + xs.length ≤ s.cap then
    (h.set s.arr (writeAt (h.cells s.arr) (s.off + s.len) xs),
     { s with len := s.len + xs.length })
  else
    (h ++ [h.read s ++ xs],
     { arr := h.length, off := 0, len := s.len + xs.length, cap := s.len + xs.length })

/-- The generated `DeepCopy` of a slice field: `make([]T, len(in))` and an
element-wise copy into the fresh array. -/
def deepCopySlice {α : Type} (h : Heap α) (s : Slice) : Heap α × Slice :=
  (h ++ [h.read s], { arr := h.length, off := 0, len := s.len, cap := s.len })

/-- A slice header is well formed in a heap: its window lies inside its array. -/
def Slice.WF {α : Type} (h : Heap α) (s : Slice) : Prop :=
  s.len ≤ s.cap ∧ s.off + s.cap ≤ (h.cells s.arr).length

instance {α : Type} (h : Heap α) (s : Slice) : Decidable (s.WF h) := by
  unfold Slice.WF; infer_instance

/-! ## Data model -/

/-- `metav1.Initializer`. -/
structure Initializer where
  Name : String
deriving DecidableEq, Repr

/-- `corev1.Container`; the program never looks inside one. -/
structure Container where
  Name : String
  Image : String
deriving DecidableEq, Repr

/-- `corev1.Volume`; the program never looks inside one. -/
structure Volume where
  Name : String
deriving DecidableEq, Repr

/-- `metav1.Initializers`: the pending queue (a slice) and the result status. -/
structure Initializers where
  Pending : Slice
  Result : Option String
deriving DecidableEq, Repr

/-- `v1.Deployment` as held in memory: the fields the program reads or writes,
with slice-typed fields as headers into `Mem`; `Other` stands for every
remaining field.  `Initializers` is the pointer `ObjectMeta.Initializers`
(`none` is nil). -/
structure Deployment where
  Name : String
  Namespace : String
  Initializers : Option Initializers
  Annotations : List (String × String)
  Containers : Slice
  Volumes : Slice
  Other : String
deriving DecidableEq, Repr

/-- The backing arrays of the three slice element types. -/
structure Mem where
  inits : Heap Initializer
  conts : Heap Container
  vols : Heap Volume
deriving DecidableEq, Repr

/-- The `Initializers` attribute as a value. -/
structure InitializersDoc where
  Pending : List Initializer
  Result : Option String
deriving DecidableEq, Repr

/-- A deployment as a value: what a reader of the object sees, and what is
serialised or sent to the cluster. -/
structure DeploymentDoc where
  Name : String
  Namespace : String
  Initializers : Option InitializersDoc
  Annotations : List (String × String)
  Containers : List Container
  Volumes : List Volume
  Other : String
deriving DecidableEq, Repr

/-- The value of deployment `d` in memory `mem`. -/
def Mem.view (mem : Mem) (d : Deployment) : DeploymentDoc :=
  { Name := d.Name
    Namespace := d.Namespace
    Initializers := d.Initializers.map fun i =>
      { Pending := mem.inits.read i.Pending, Result := i.Result }
    Annotations := d.Annotations
    Containers := mem.conts.read d.Containers
    Volumes := mem.vols.read d.Volumes
    Other := d.Other }

/-- Every slice of the deployment is well formed in the memory. -/
def Deployment.WF (mem : Mem) (d : Deployment) : Prop :=
  (∀ i ∈ d.Initializers, i.Pending.WF mem.inits) ∧
  d.Containers.WF mem.conts ∧ d.Volumes.WF mem.vols

instance (mem : Mem) (d : Deployment) : Decidable (d.WF mem) := by
  unfold Deployment.WF; infer_instance

/-- The generated `(*Deployment).DeepCopy`: a new object whose slices have
fresh backing arrays. -/
def Deployment.DeepCopy (mem : Mem) (d : Deployment) : Mem × Deployment :=
  let ri : Heap Initializer × Option EnvoyInitializer.Initializers :=
    match d.Initializers with
    | none => (mem.inits, none)
    | some i =>
      let r := deepCopySlice mem.inits i.Pending
      (r.1, some { i with Pending := r.2 })
  let rc := deepCopySlice mem.conts d.Containers
  let rv := deepCopySlice mem.vols d.Volumes
  ({ inits := ri.1, conts := rc.1, vols := rv.1 },
   { d with Initializers := ri.2, Containers := rc.2, Volumes := rv.2 })

/-- The `config` struct: the sidecar containers and volumes to inject. -/
structure config where
  Containers : List Container
  Volumes : List Volume
deriving DecidableEq, Repr

/-- The package-level flag variables read by `initializeDeployment`. -/
structure Flags where
  annotation : String
  initializerName : String
  requireAnnotation : Bool
deriving DecidableEq, Repr

abbrev Error := String
abbrev Bytes := String

/-- `types.StrategicMergePatchType`. -/
def StrategicMergePatchType : String := "application/strategic-merge-patch+json"

/-- The two `json.Marshal` call sites: line 177 (`oldData`) and line 182
(`newData`). -/
inductive Site where
  | oldData
  | newData
deriving DecidableEq, Repr

/-- A call to an external collaborator; a `marshal` event names its call site. -/
inductive Event where
  | marshal (site : Site) (doc : DeploymentDoc)
  | createTwoWayMergePatch (oldData newData : Bytes)
  | update (ns : String) (doc : DeploymentDoc)
  | patch (ns name pt : String) (data : Bytes)
deriving DecidableEq, Repr

/-- The event is a write to the cluster. -/
def Event.isWrite : Event → Bool
  | .update _ _ => true
  | .patch _ _ _ _ => true
  | _ => false

/-- The external collaborators: `json.Marshal`,
`strategicpatch.CreateTwoWayMergePatch`, and the error results of the
cluster's `Deployments(ns).Update` and `Deployments(ns).Patch`. -/
structure Env where
  marshal : DeploymentDoc → Except Error Bytes
  createTwoWayMergePatch : Bytes → Bytes → Except Error Bytes
  update : String → DeploymentDoc → Option Error
  patch : String → String → String → Bytes → Option Error

/-- The error, if any, with which the collaborator answers a call. -/
def Env.errorOf (env : Env) : Event → Option Error
  | .marshal _ doc =>
    match env.marshal doc with
    | .error e => some e
    | .ok _ => none
  | .createTwoWayMergePatch o n =>
    match env.createTwoWayMergePatch o n with
    | .error e => some e
    | .ok _ => none
  | .update ns doc => env.update ns doc
  | .patch ns name pt data => env.patch ns name pt data

/-- How a call of `initializeDeployment` ends. -/
inductive Outcome where
  | returned (err : Option Error)
  | panicked
deriving DecidableEq, Repr

/-- Everything observable about one call: how it ended, the calls it made in
order, the memory it left behind, and the local `initializedDeployment` when
it was built. -/
structure Run where
  outcome : Outcome
  trace : List Event
  mem : Mem
  initialized : Option Deployment
deriving DecidableEq, Repr

/-- The desired deployment as a value, when one was built. -/
def Run.desired (r : Run) : Option DeploymentDoc := r.initialized.map r.mem.view

/-- The writes issued to the cluster. -/
def Run.writes (r : Run) : List Event := r.trace.filter Event.isWrite

/-- The document an event hands over as the desired state: the object of an
`Update`, or the document serialised as `newData` for the patch. -/
def Event.desiredDoc : Event → Option DeploymentDoc
  | .update _ doc => some doc
  | .marshal .newData doc => some doc
  | _ => none

/-- The desired documents that left the function, in order. -/
def Run.submitted (r : Run) : List DeploymentDoc := r.trace.filterMap Event.desiredDoc

/-! ## The program -/

/-- Lines 152-157: remove self from the pending queue of the copy.  `none` is a
run-time panic (slice bounds, or a nil `Initializers` in the copy). -/
def removeSelf (mem : Mem) (initializedDeployment : Deployment)
    (pendingInitializers : Slice) : Option (Mem × Deployment) :=
  if pendingInitializers.len = 1 then
    some (mem, { initializedDeployment with Initializers := none })
  else
    match pendingInitializers.reslice 0 0,
          pendingInitializers.reslice 1 pendingInitializers.len with
    | some dst, some src =>
      let r := goAppend mem.inits dst (mem.inits.read src)
      match initializedDeployment.Initializers with
      | none => none
      | some i =>
        some ({ mem with inits := r.1 },
              { initializedDeployment with Initializers := some { i with Pending := r.2 } })
    | _, _ => none

/-- Lines 172-195: append the sidecar containers and volumes, serialise both
objects, build the two-way merge patch and send it. -/
def injectAndPatch (env : Env) (mem : Mem) (deployment initializedDeployment : Deployment)
    (c : config) : Run :=
  let rc := goAppend mem.conts deployment.Containers c.Containers
  let rv := goAppend mem.vols deployment.Volumes c.Volumes
  let mem : Mem := { mem with conts := rc.1, vols := rv.1 }
  let initializedDeployment : Deployment :=
    { initializedDeployment with Containers := rc.2, Volumes := rv.2 }
  let oldDoc := mem.view deployment
  match env.marshal oldDoc with
  | .error err =>
    { outcome := .returned (some err), trace := [.marshal .oldData oldDoc], mem := mem,
      initialized := some initializedDeployment }
  | .ok oldData =>
    let newDoc := mem.view initializedDeployment
    match env.marshal newDoc with
    | .error err =>
      { outcome := .returned (some err),
        trace := [.marshal .oldData oldDoc, .marshal .newData newDoc],
        mem := mem, initialized := some initializedDeployment }
    | .ok newData =>
      match env.createTwoWayMergePatch oldData newData with
      | .error err =>
        { outcome := .returned (some err),
          trace := [.marshal .oldData oldDoc, .marshal .newData newDoc,
                    .createTwoWayMergePatch oldData newData],
          mem := mem, initialized := some initializedDeployment }
      | .ok patchBytes =>
        { outcome :=
            .returned (env.patch deployment.Namespace deployment.Name
              StrategicMergePatchType patchBytes),
          trace := [.marshal .oldData oldDoc, .marshal .newData newDoc,
                    .createTwoWayMergePatch oldData newData,
                    .patch deployment.Namespace deployment.Name
                      StrategicMergePatchType patchBytes],
          mem := mem, initialized := some initializedDeployment }

/-- The function `initializeDeployment` of `main.go`. -/
def initializeDeployment (fl : Flags) (env : Env) (mem : Mem) (deployment : Deployment)
    (c : config) : Run :=
  match deployment.Initializers with
  | none => { outcome := .returned none, trace := [], mem := mem, initialized := none }
  | some ini =>
    let pendingInitializers := ini.Pending
    match mem.inits.index pendingInitializers 0 with
    | none => { outcome := .panicked, trace := [], mem := mem, initialized := none }
    | some head =>
      if fl.initializerName = head.Name then
        let cp := deployment.DeepCopy mem
        match removeSelf cp.1 cp.2 pendingInitializers with
        | none => { outcome := .panicked, trace := [], mem := cp.1, initialized := some cp.2 }
        | some (mem, initializedDeployment) =>
          if fl.requireAnnotation then
            match deployment.Annotations.lookup fl.annotation with
            | none =>
              let doc := mem.view initializedDeployment
              { outcome := .returned (env.update deployment.Namespace doc),
                trace := [.update deployment.Namespace doc],
                mem := mem, initialized := some initializedDeployment }
            | some _ => injectAndPatch env mem deployment initializedDeployment c
          else injectAndPatch env mem deployment initializedDeployment c
      else { outcome := .returned none, trace := [], mem := mem, initialized := none }

/-! ## Specification-side values -/

/-- The Initializers attribute once the head `head` has been removed from the
queue `head :: rest`: absent when nothing is left, otherwise the rest. -/
def dequeued (rest : List Initializer) (result : Option String) : Option InitializersDoc :=
  if rest = [] then none else some { Pending := rest, Result := result }

/-- Error propagation, for one run: an error is returned exactly when a call
that was made failed; the error returned is that of the last call made, every
call before it succeeded and none of them was a write; a write that succeeded
is followed by the return of nil; at most one write is made. -/
def ErrorsPropagate (env : Env) (r : Run) : Prop :=
  ((∃ e, r.outcome = .returned (some e)) ↔ ∃ ev ∈ r.trace, env.errorOf ev ≠ none)
  ∧ (∀ e, r.outcome = .returned (some e) →
      ∃ pre ev, r.trace = pre ++ [ev] ∧ env.errorOf ev = some e
        ∧ ∀ x ∈ pre, env.errorOf x = none ∧ x.isWrite = false)
  ∧ (∀ ev ∈ r.trace, ev.isWrite = true → env.errorOf ev = none → r.outcome = .returned none)
  ∧ r.writes.length ≤ 1

/-! ## Concrete inputs -/

/-- A collaborator set in which every call succeeds. -/
def okEnv : Env :=
  { marshal := fun _ => .ok "doc"
    createTwoWayMergePatch := fun _ _ => .ok "patch"
    update := fun _ _ => none
    patch := fun _ _ _ _ => none }

/-- A collaborator set in which the cluster rejects every patch. -/
def rejectEnv : Env := { okEnv with patch := fun _ _ _ _ => some "conflict" }

def selfName : String := "envoy.initializer.kubernetes.io"

def flagsDefault : Flags :=
  { annotation := "initializer.kubernetes.io/envoy", initializerName := selfName,
    requireAnnotation := false }

def flagsGated : Flags := { flagsDefault with requireAnnotation := true }

def sidecar : config :=
  { Containers := [⟨"envoy", "envoy:1"⟩], Volumes := [⟨"envoy-conf"⟩] }

/-- A memory with one pending array `q`, one container and one volume array. -/
def memOf (q : List Initializer) : Mem :=
  { inits := [q], conts := [[⟨"app", "app:1"⟩]], vols := [[⟨"data"⟩]] }

/-- A deployment whose pending queue is the whole of array 0 (length `n`). -/
def deployOf (n : Nat) : Deployment :=
  { Name := "web", Namespace := "default"
    Initializers := some { Pending := ⟨0, 0, n, n⟩, Result := none }
    Annotations := []
    Containers := ⟨0, 0, 1, 1⟩, Volumes := ⟨0, 0, 1, 1⟩, Other := "replicas=1" }

/-- The deployment `deployOf n` carrying the gating annotation with an empty value. -/
def deployAnnotated (n : Nat) : Deployment :=
  { deployOf n with Annotations := [("initializer.kubernetes.io/envoy", "")] }

/-! ## Slices and heaps -/

theorem index_zero_eq_head {α : Type} (h : Heap α) (s : Slice) :
    h.index s 0 = (h.read s).head? := by
  unfold Heap.index Heap.read
  by_cases hl : 0 < s.len
  · simp only [hl, if_true, Nat.add_zero]
    cases hd : List.drop s.off (h.cells s.arr) with
    | nil =>
      have : (h.cells s.arr).length ≤ s.off := by
        simpa [List.drop_eq_nil_iff] using hd
      simp [List.getElem?_eq_none this]
    | cons a t =>
      have h1 : (h.cells s.arr)[s.off]? = (List.drop s.off (h.cells s.arr))[0]? := by
        simp [List.getElem?_drop]
      rw [h1, hd]
      obtain ⟨n, hn⟩ : ∃ n, s.len = n + 1 := ⟨s.len - 1, by omega⟩
      simp [hn]
  · have : s.len = 0 := by omega
    simp [this]

theorem read_length {α : Type} (h : Heap α) (s : Slice) (hwf : s.WF h) :
    (h.read s).length = s.len := by
  unfold Heap.read
  obtain ⟨h1, h2⟩ := hwf
  simp only [List.length_take, List.length_drop]
  omega

theorem cells_append_of_WF {α : Type} (h : Heap α) (x : List α) (s : Slice) (hwf : s.WF h)
    (hpos : 0 < s.cap) : (h ++ [x]).cells s.arr = h.cells s.arr := by
  obtain ⟨h1, h2⟩ := hwf
  unfold Heap.cells at *
  by_cases ha : s.arr < h.length
  · simp [List.getD_eq_getElem?_getD, List.getElem?_append_left ha]
  · have : h.getD s.arr [] = [] := by
      simp [List.getD_eq_getElem?_getD, List.getElem?_eq_none (Nat.le_of_not_lt ha)]
    rw [this] at h2
    simp at h2
    omega

theorem read_append_of_WF {α : Type} (h : Heap α) (x : List α) (s : Slice) (hwf : s.WF h) :
    (h ++ [x]).read s = h.read s := by
  by_cases hpos : 0 < s.cap
  · unfold Heap.read
    rw [cells_append_of_WF h x s hwf hpos]
  · have : s.len = 0 := by have := hwf.1; omega
    simp [Heap.read, this]

theorem WF_append {α : Type} (h : Heap α) (x : List α) (s : Slice) (hwf : s.WF h) :
    s.WF (h ++ [x]) := by
  by_cases hpos : 0 < s.cap
  · unfold Slice.WF
    rw [cells_append_of_WF h x s hwf hpos]
    exact hwf
  · have h0 : s.cap = 0 := by omega
    obtain ⟨h1, h2⟩ := hwf
    refine ⟨h1, ?_⟩
    rw [h0] at h2 ⊢
    have : (h.cells s.arr).length ≤ ((h ++ [x]).cells s.arr).length := by
      unfold Heap.cells
      by_cases ha : s.arr < h.length
      · simp [List.getD_eq_getElem?_getD, List.getElem?_append_left ha]
      · simp [List.getD_eq_getElem?_getD, List.getElem?_eq_none (Nat.le_of_not_lt ha)]
    omega

theorem read_deepCopySlice {α : Type} (h : Heap α) (s : Slice) :
    (deepCopySlice h s).1.read (deepCopySlice h s).2 = h.read s := by
  simp only [deepCopySlice, Heap.read, Heap.cells]
  simp [List.getD_eq_getElem?_getD]

theorem cells_set {α : Type} (h : Heap α) (a : Nat) (v : List α) (ha : a < h.length) :
    Heap.cells (h.set a v) a = v := by
  simp [Heap.cells, List.getD_eq_getElem?_getD, List.getElem?_set, ha]

theorem drop_writeAt {α : Type} (l : List α) (off n : Nat) (xs : List α)
    (hl : off + n ≤ l.length) :
    List.drop off (writeAt l (off + n) xs)
      = List.take n (List.drop off l) ++ (xs ++ List.drop (off + n + xs.length) l) := by
  unfold writeAt
  have h1 : (List.take (off + n) l).length = off + n := by
    simp [List.length_take]; omega
  rw [List.append_assoc, List.drop_append_of_le_length (by omega), List.drop_take]
  simp

theorem read_goAppend {α : Type} (h : Heap α) (s : Slice) (xs : List α) (hwf : s.WF h) :
    (goAppend h s xs).1.read (goAppend h s xs).2 = h.read s ++ xs := by
  obtain ⟨h1, h2⟩ := hwf
  unfold goAppend
  split
  · rename_i hfit
    by_cases ha : s.arr < h.length
    · simp only [Heap.read]
      rw [cells_set h _ _ ha, drop_writeAt _ _ _ _ (by omega)]
      have hlen : (List.take s.len (List.drop s.off (h.cells s.arr))).length = s.len := by
        simp [List.length_take, List.length_drop]; omega
      rw [← List.append_assoc, List.take_append_of_le_length (by simp [hlen]),
        List.take_append_eq_append_take, hlen]
      simp
    · have hc : h.cells s.arr = [] := by
        simp [Heap.cells, List.getD_eq_getElem?_getD,
          List.getElem?_eq_none (Nat.le_of_not_lt ha)]
      rw [hc] at h2
      simp at h2
      have hx : xs = [] := List.eq_nil_of_length_eq_zero (by omega)
      have hl : s.len = 0 := by omega
      simp [Heap.read, hx, hl]
  · have hl := read_length h s ⟨h1, h2⟩
    simp only [Heap.read, Heap.cells] at hl ⊢
    simp [List.getD_eq_getElem?_getD, List.take_append_eq_append_take, hl,
      List.take_of_length_le]

theorem read_goAppend_orig {α : Type} (h : Heap α) (s : Slice) (xs : List α) (hwf : s.WF h) :
    (goAppend h s xs).1.read s = h.read s := by
  unfold goAppend
  split
  · rename_i hfit
    obtain ⟨h1, h2⟩ := hwf
    by_cases ha : s.arr < h.length
    · simp only [Heap.read]
      rw [cells_set h _ _ ha, drop_writeAt _ _ _ _ (by omega)]
      have hlen : (List.take s.len (List.drop s.off (h.cells s.arr))).length = s.len := by
        simp [List.length_take, List.length_drop]; omega
      rw [List.take_append_of_le_length (by omega)]
      simp
    · have hs : h.set s.arr (writeAt (h.cells s.arr) (s.off + s.len) xs) = h := by
        simp [List.set_eq_of_length_le (Nat.le_of_not_lt ha)]
      simp only [hs]
  · exact read_append_of_WF h _ s hwf

theorem read_reslice_tail {α : Type} (h : Heap α) (s : Slice) :
    h.read { arr := s.arr, off := s.off + 1, len := s.len - 1, cap := s.cap - 1 }
      = (h.read s).tail := by
  simp only [Heap.read]
  rw [← List.drop_one, List.drop_take, List.drop_drop]

theorem drop_length_pred {α : Type} (l : List α) (h : l ≠ []) :
    l.drop (l.length - 1) = [l.getLast h] := by
  induction l with
  | nil => exact absurd rfl h
  | cons a t ih =>
    cases t with
    | nil => rfl
    | cons b t2 =>
      have := ih (List.cons_ne_nil b t2)
      simpa [List.getLast_cons] using this

theorem read_after_shift {α : Type} (h : Heap α) (s : Slice) (hwf : s.WF h)
    (hlen : 1 ≤ s.len) :
    (goAppend h { arr := s.arr, off := s.off + 0, len := 0 - 0, cap := s.cap - 0 }
        (h.read s).tail).1.read s
      = (h.read s).tail ++ (h.read s).drop (s.len - 1) := by
  obtain ⟨h1, h2⟩ := hwf
  have hrl := read_length h s ⟨h1, h2⟩
  have htl : (h.read s).tail.length = s.len - 1 := by simp [hrl]
  have ha : s.arr < h.length := by
    by_contra hc
    have : h.cells s.arr = [] := by
      simp [Heap.cells, List.getD_eq_getElem?_getD,
        List.getElem?_eq_none (Nat.le_of_not_lt hc)]
    rw [this] at h2
    simp at h2
    omega
  unfold goAppend
  have hfit : 0 - 0 + (h.read s).tail.length ≤ s.cap - 0 := by omega
  simp only [hfit, if_true]
  simp only [Heap.read] at htl ⊢
  rw [cells_set h _ _ ha]
  have hw := drop_writeAt (h.cells s.arr) s.off 0
    (List.take s.len (List.drop s.off (h.cells s.arr))).tail (by omega)
  simp only [Nat.add_zero, Nat.sub_zero] at hw ⊢
  rw [hw, htl]
  simp only [List.take_zero, List.nil_append]
  rw [List.take_append_eq_append_take, htl, List.take_of_length_le (by omega),
    List.drop_take, List.drop_drop]

/-! ## The steps of the program -/

theorem view_after_append_orig (mem : Mem) (d : Deployment) (c : config)
    (hc : d.Containers.WF mem.conts) (hv : d.Volumes.WF mem.vols) :
    Mem.view { mem with conts := (goAppend mem.conts d.Containers c.Containers).1,
                        vols := (goAppend mem.vols d.Volumes c.Volumes).1 } d
      = mem.view d := by
  simp only [Mem.view, read_goAppend_orig _ _ _ hc, read_goAppend_orig _ _ _ hv]

theorem view_after_append_new (mem : Mem) (d init : Deployment) (c : config)
    (hc : d.Containers.WF mem.conts) (hv : d.Volumes.WF mem.vols) :
    Mem.view { mem with conts := (goAppend mem.conts d.Containers c.Containers).1,
                        vols := (goAppend mem.vols d.Volumes c.Volumes).1 }
        { init with Containers := (goAppend mem.conts d.Containers c.Containers).2,
                    Volumes := (goAppend mem.vols d.Volumes c.Volumes).2 }
      = { mem.view init with
          Containers := mem.conts.read d.Containers ++ c.Containers,
          Volumes := mem.vols.read d.Volumes ++ c.Volumes } := by
  simp only [Mem.view, read_goAppend _ _ _ hc, read_goAppend _ _ _ hv]

theorem removeSelf_view (mem : Mem) (d : Deployment) (ini : Initializers)
    (head : Initializer) (rest : List Initializer)
    (hini : d.Initializers = some ini) (hwf : d.WF mem)
    (hq : mem.inits.read ini.Pending = head :: rest) :
    ∃ mem2 init, removeSelf (d.DeepCopy mem).1 (d.DeepCopy mem).2 ini.Pending = some (mem2, init)
      ∧ mem2.view init = { mem.view d with Initializers := dequeued rest ini.Result }
      ∧ mem2.conts.read d.Containers = mem.conts.read d.Containers
      ∧ mem2.vols.read d.Volumes = mem.vols.read d.Volumes
      ∧ d.Containers.WF mem2.conts ∧ d.Volumes.WF mem2.vols
      ∧ mem2.inits.read ini.Pending = rest ++ (head :: rest).drop rest.length := by
  obtain ⟨hwi, hwc, hwv⟩ := hwf
  have hwi := hwi ini hini
  have hlen := read_length _ _ hwi
  rw [hq] at hlen
  simp only [List.length_cons] at hlen
  have hcopyC := read_deepCopySlice mem.conts d.Containers
  have hcopyV := read_deepCopySlice mem.vols d.Volumes
  unfold removeSelf
  by_cases h1 : ini.Pending.len = 1
  · have hrest : rest = [] := List.eq_nil_of_length_eq_zero (by omega)
    apply Exists.intro
    apply Exists.intro
    refine ⟨?hrs, ?hview, ?hc, ?hv, ?hwc, ?hwv, ?hdel⟩
    case hrs =>
      simp only [h1, if_true]
      rfl
    case hview =>
      simp only [Mem.view, Deployment.DeepCopy, hini, hcopyC, hcopyV, dequeued, hrest,
        if_true, Option.map_none']
    case hc => exact read_append_of_WF _ _ _ hwc
    case hv => exact read_append_of_WF _ _ _ hwv
    case hwc => exact WF_append _ _ _ hwc
    case hwv => exact WF_append _ _ _ hwv
    case hdel =>
      have := read_append_of_WF mem.inits (mem.inits.read ini.Pending) _ hwi
      simp only [Deployment.DeepCopy, hini, deepCopySlice]
      rw [this, hq, hrest]
      rfl
  · have hrest : rest ≠ [] := by
      intro h; rw [h] at hlen; simp at hlen; omega
    have hcap : 1 ≤ ini.Pending.len ∧ ini.Pending.len ≤ ini.Pending.cap := ⟨by omega, hwi.1⟩
    have hwi2 := WF_append mem.inits (mem.inits.read ini.Pending) _ hwi
    have hdst : Slice.WF (mem.inits ++ [mem.inits.read ini.Pending])
        { arr := ini.Pending.arr, off := ini.Pending.off + 0, len := 0 - 0,
          cap := ini.Pending.cap - 0 } := by
      obtain ⟨a, b⟩ := hwi2
      exact ⟨by simp, by simpa using b⟩
    have hsrc : Heap.read (mem.inits ++ [mem.inits.read ini.Pending])
        { arr := ini.Pending.arr, off := ini.Pending.off + 1, len := ini.Pending.len - 1,
          cap := ini.Pending.cap - 1 } = rest := by
      rw [read_reslice_tail, read_append_of_WF _ _ _ hwi, hq]; rfl
    have hres := read_goAppend _ _ rest hdst
    apply Exists.intro
    apply Exists.intro
    refine ⟨?hrs, ?hview, ?hc, ?hv, ?hwc, ?hwv, ?hdel⟩
    case hrs =>
      simp only [h1, if_false, Slice.reslice, Nat.le_refl, Nat.zero_le, true_and, if_true,
        hcap.1, hcap.2, and_self, Deployment.DeepCopy, hini, deepCopySlice, hsrc]
      rfl
    case hview =>
      simp only [Mem.view, hcopyC, hcopyV, dequeued, hrest, if_false, deepCopySlice] at hres ⊢
      simp only [Option.map_some', hini]
      rw [hres]
      simp [Heap.read, Heap.cells, List.getD_eq_getElem?_getD]
    case hc => exact read_append_of_WF _ _ _ hwc
    case hv => exact read_append_of_WF _ _ _ hwv
    case hwc => exact WF_append _ _ _ hwc
    case hwv => exact WF_append _ _ _ hwv
    case hdel =>
      have hsh := read_after_shift _ _ hwi2 hcap.1
      rw [read_append_of_WF _ _ _ hwi, hq] at hsh
      simp only [List.tail_cons] at hsh
      simp only [hq]
      rw [hsh, ← hlen]
      rfl

theorem pending_of_view (mem : Mem) (d : Deployment) (q : List Initializer)
    (result : Option String) (hq : (mem.view d).Initializers = some ⟨q, result⟩) :
    ∃ ini, d.Initializers = some ini ∧ mem.inits.read ini.Pending = q ∧ ini.Result = result := by
  cases hi : d.Initializers with
  | none => simp [Mem.view, hi] at hq
  | some ini =>
    simp only [Mem.view, hi, Option.map_some', Option.some.injEq, InitializersDoc.mk.injEq] at hq
    exact ⟨ini, rfl, hq.1, hq.2⟩

/-- The run on an owned deployment: the copy with self removed is built, then
either the full-object update is sent (gating on, annotation missing) or the
injection and patch step runs. -/
theorem owned_run (fl : Flags) (mem : Mem) (d : Deployment)
    (head : Initializer) (rest : List Initializer) (result : Option String)
    (hwf : d.WF mem)
    (hq : (mem.view d).Initializers = some ⟨head :: rest, result⟩)
    (hown : head.Name = fl.initializerName) :
    ∃ mem2 init,
      mem2.view init = { mem.view d with Initializers := dequeued rest result }
      ∧ mem2.conts.read d.Containers = mem.conts.read d.Containers
      ∧ mem2.vols.read d.Volumes = mem.vols.read d.Volumes
      ∧ d.Containers.WF mem2.conts ∧ d.Volumes.WF mem2.vols
      ∧ mem2.view d = { mem.view d with
          Initializers := some ⟨rest ++ (head :: rest).drop rest.length, result⟩ }
      ∧ ∀ (env : Env) (c : config), initializeDeployment fl env mem d c =
          if fl.requireAnnotation = true ∧ d.Annotations.lookup fl.annotation = none then
            { outcome := .returned (env.update d.Namespace (mem2.view init)),
              trace := [.update d.Namespace (mem2.view init)],
              mem := mem2, initialized := some init }
          else injectAndPatch env mem2 d init c := by
  obtain ⟨ini, hini, hread, hres⟩ := pending_of_view mem d _ _ hq
  obtain ⟨mem2, init, hrs, hview, hc, hv, hwc, hwv, hdel⟩ :=
    removeSelf_view mem d ini head rest hini hwf hread
  refine ⟨mem2, init, by rw [hview, hres], hc, hv, hwc, hwv,
    by simp only [Mem.view, hini, Option.map_some', hdel, hres, hc, hv], ?_⟩
  have hidx : mem.inits.index ini.Pending 0 = some head := by
    rw [index_zero_eq_head, hread]; rfl
  intro env c
  unfold initializeDeployment
  simp only [hini, hidx, hown, if_true, hrs]
  cases hra : fl.requireAnnotation with
  | false => simp
  | true =>
    cases hl : d.Annotations.lookup fl.annotation with
    | none => simp
    | some v => simp

theorem injectAndPatch_desired (env : Env) (mem : Mem) (d init : Deployment) (c : config)
    (hc : d.Containers.WF mem.conts) (hv : d.Volumes.WF mem.vols) :
    (injectAndPatch env mem d init c).desired
        = some { mem.view init with
            Containers := mem.conts.read d.Containers ++ c.Containers,
            Volumes := mem.vols.read d.Volumes ++ c.Volumes }
    ∧ ((injectAndPatch env mem d init c).submitted
        = [{ mem.view init with
            Containers := mem.conts.read d.Containers ++ c.Containers,
            Volumes := mem.vols.read d.Volumes ++ c.Volumes }]
      ∨ ((injectAndPatch env mem d init c).submitted = []
        ∧ ∃ old e, (injectAndPatch env mem d init c).trace = [.marshal .oldData old]
            ∧ env.marshal old = .error e)) := by
  have hnew := view_after_append_new mem d init c hc hv
  unfold injectAndPatch
  simp only []
  split
  · rename_i err herr
    refine ⟨by simp only [Run.desired, Option.map_some', hnew], Or.inr ⟨by rfl, _, err, rfl, herr⟩⟩
  · split
    · exact ⟨by simp only [Run.desired, Option.map_some', hnew],
        Or.inl (by simp [Run.submitted, Event.desiredDoc, hnew])⟩
    · split
      · exact ⟨by simp only [Run.desired, Option.map_some', hnew],
          Or.inl (by simp [Run.submitted, Event.desiredDoc, hnew])⟩
      · exact ⟨by simp only [Run.desired, Option.map_some', hnew],
          Or.inl (by simp [Run.submitted, Event.desiredDoc, hnew])⟩

/-- The desired document of an owned deployment, and the fact that it is the
one handed over (unless serialising the delivered object failed first). -/
theorem owned_desired (fl : Flags) (env : Env) (mem : Mem) (d : Deployment) (c : config)
    (head : Initializer) (rest : List Initializer) (result : Option String)
    (hwf : d.WF mem)
    (hq : (mem.view d).Initializers = some ⟨head :: rest, result⟩)
    (hown : head.Name = fl.initializerName) :
    (initializeDeployment fl env mem d c).desired
        = some (if fl.requireAnnotation = true ∧ d.Annotations.lookup fl.annotation = none then
            { mem.view d with Initializers := dequeued rest result }
          else
            { mem.view d with
              Initializers := dequeued rest result
              Containers := (mem.view d).Containers ++ c.Containers
              Volumes := (mem.view d).Volumes ++ c.Volumes })
    ∧ ((initializeDeployment fl env mem d c).submitted
        = [if fl.requireAnnotation = true ∧ d.Annotations.lookup fl.annotation = none then
            { mem.view d with Initializers := dequeued rest result }
          else
            { mem.view d with
              Initializers := dequeued rest result
              Containers := (mem.view d).Containers ++ c.Containers
              Volumes := (mem.view d).Volumes ++ c.Volumes }]
      ∨ ((initializeDeployment fl env mem d c).submitted = []
        ∧ ∃ old e, (initializeDeployment fl env mem d c).trace = [.marshal .oldData old]
            ∧ env.marshal old = .error e)) := by
  obtain ⟨mem2, init, hview, hc, hv, hwc, hwv, -, hrun⟩ := owned_run fl mem d head rest result hwf hq hown
  rw [hrun env c]
  by_cases hg : fl.requireAnnotation = true ∧ d.Annotations.lookup fl.annotation = none
  · simp only [hg, and_self, if_true]
    exact ⟨by simp only [Run.desired, Option.map_some', hview],
      Or.inl (by simp [Run.submitted, Event.desiredDoc, hview])⟩
  · simp only [hg, if_false]
    have h := injectAndPatch_desired env mem2 d init c hwc hwv
    rw [hview, hc, hv] at h
    exact h

/-- The calls of the injection and patch step: no `Update`, and either no write
at all because a step before it failed, or exactly the one `Patch` whose body
`CreateTwoWayMergePatch` built from the two serialised documents. -/
theorem injectAndPatch_writes (env : Env) (mem : Mem) (d init : Deployment) (c : config) :
    (∀ ev ∈ (injectAndPatch env mem d init c).trace, ∀ ns doc, ev ≠ .update ns doc)
    ∧ (((injectAndPatch env mem d init c).writes = []
        ∧ ∃ e, (injectAndPatch env mem d init c).outcome = .returned (some e))
      ∨ ∃ newDoc oldData newData patchBytes,
          (injectAndPatch env mem d init c).desired = some newDoc
          ∧ env.marshal ((injectAndPatch env mem d init c).mem.view d) = .ok oldData
          ∧ env.marshal newDoc = .ok newData
          ∧ env.createTwoWayMergePatch oldData newData = .ok patchBytes
          ∧ (injectAndPatch env mem d init c).writes
              = [.patch d.Namespace d.Name StrategicMergePatchType patchBytes]) := by
  unfold injectAndPatch
  simp only []
  split
  · exact ⟨by simp, Or.inl ⟨by simp [Run.writes, Event.isWrite], _, rfl⟩⟩
  · rename_i oldData hold
    split
    · exact ⟨by simp, Or.inl ⟨by simp [Run.writes, Event.isWrite], _, rfl⟩⟩
    · rename_i newData hnew
      split
      · exact ⟨by simp, Or.inl ⟨by simp [Run.writes, Event.isWrite], _, rfl⟩⟩
      · rename_i patchBytes hpatch
        exact ⟨by simp, Or.inr ⟨_, oldData, newData, patchBytes, rfl, hold, hnew, hpatch,
          by simp [Run.writes, Event.isWrite]⟩⟩

/-- Error propagation of the injection and patch step. -/
theorem injectAndPatch_errors (env : Env) (mem : Mem) (d init : Deployment) (c : config) :
    ErrorsPropagate env (injectAndPatch env mem d init c) := by
  unfold ErrorsPropagate
  unfold injectAndPatch
  simp only []
  split
  · rename_i err herr
    refine ⟨?_, ?_, ?_, ?_⟩
    · simp [Env.errorOf, herr]
    · intro e he
      refine ⟨[], _, rfl, ?_, by simp⟩
      simp only [Outcome.returned.injEq, Option.some.injEq] at he
      simp [Env.errorOf, herr, he]
    · simp [Event.isWrite]
    · simp [Run.writes, Event.isWrite]
  · rename_i oldData hold
    split
    · rename_i err herr
      refine ⟨?_, ?_, ?_, ?_⟩
      · simp [Env.errorOf, herr, hold]
      · intro e he
        refine ⟨[_], _, rfl, ?_, by simp [Env.errorOf, hold, Event.isWrite]⟩
        simp only [Outcome.returned.injEq, Option.some.injEq] at he
        simp [Env.errorOf, herr, he]
      · simp [Event.isWrite]
      · simp [Run.writes, Event.isWrite]
    · rename_i newData hnew
      split
      · rename_i err herr
        refine ⟨?_, ?_, ?_, ?_⟩
        · simp [Env.errorOf, herr, hold, hnew]
        · intro e he
          refine ⟨[_, _], _, rfl, ?_, by simp [Env.errorOf, hold, hnew, Event.isWrite]⟩
          simp only [Outcome.returned.injEq, Option.some.injEq] at he
          simp [Env.errorOf, herr, he]
        · simp [Event.isWrite]
        · simp [Run.writes, Event.isWrite]
      · rename_i patchBytes hpatch
        refine ⟨?_, ?_, ?_, ?_⟩
        · cases hp : env.patch d.Namespace d.Name StrategicMergePatchType patchBytes <;>
            simp [Env.errorOf, hold, hnew, hpatch, hp]
        · intro e he
          refine ⟨[_, _, _], _, rfl, ?_,
            by simp [Env.errorOf, hold, hnew, hpatch, Event.isWrite]⟩
          simp only [Outcome.returned.injEq] at he
          simp [Env.errorOf, he]
        · simp [Event.isWrite, Env.errorOf]
        · simp [Run.writes, Event.isWrite]

/-- A deployment that is not owned: nothing is called, nothing is built. -/
theorem not_owned_run (fl : Flags) (env : Env) (mem : Mem) (d : Deployment) (c : config)
    (h : (mem.view d).Initializers = none ∨
      ∃ head rest result, (mem.view d).Initializers = some ⟨head :: rest, result⟩ ∧
        head.Name ≠ fl.initializerName) :
    initializeDeployment fl env mem d c
      = { outcome := .returned none, trace := [], mem := mem, initialized := none } := by
  rcases h with h | ⟨head, rest, result, hq, hne⟩
  · have hi : d.Initializers = none := by
      cases hd : d.Initializers with
      | none => rfl
      | some i => simp [Mem.view, hd] at h
    simp [initializeDeployment, hi]
  · obtain ⟨ini, hini, hread, -⟩ := pending_of_view mem d _ _ hq
    have hidx : mem.inits.index ini.Pending 0 = some head := by
      rw [index_zero_eq_head, hread]; rfl
    have hne2 : ¬ fl.initializerName = head.Name := fun e => hne e.symm
    simp [initializeDeployment, hini, hidx, hne2]

/-- Error propagation of the whole function. -/
theorem run_errors (fl : Flags) (env : Env) (mem : Mem) (d : Deployment) (c : config) :
    ErrorsPropagate env (initializeDeployment fl env mem d c) := by
  unfold initializeDeployment
  cases hi : d.Initializers with
  | none => simp [ErrorsPropagate, Run.writes]
  | some ini =>
    simp only []
    cases hidx : mem.inits.index ini.Pending 0 with
    | none => simp [ErrorsPropagate, Run.writes]
    | some head =>
      simp only []
      by_cases hown : fl.initializerName = head.Name
      · simp only [hown, if_true]
        cases hrs : removeSelf (d.DeepCopy mem).1 (d.DeepCopy mem).2 ini.Pending with
        | none => simp [ErrorsPropagate, Run.writes]
        | some p =>
          obtain ⟨mem2, init⟩ := p
          simp only []
          cases hra : fl.requireAnnotation with
          | false => exact injectAndPatch_errors _ _ _ _ _
          | true =>
            simp only [if_true]
            cases hl : d.Annotations.lookup fl.annotation with
            | none =>
              simp only []
              unfold ErrorsPropagate
              cases hu : env.update d.Namespace (mem2.view init) with
              | none => simp [Env.errorOf, hu, Run.writes, Event.isWrite]
              | some e0 =>
                refine ⟨by simp [Env.errorOf, hu], ?_, by simp [Env.errorOf, hu],
                  by simp [Run.writes, Event.isWrite]⟩
                intro e he
                simp only [Outcome.returned.injEq, Option.some.injEq] at he
                exact ⟨[], _, rfl, by simp [Env.errorOf, hu, he], by simp⟩
            | some v => exact injectAndPatch_errors _ _ _ _ _
      · simp [hown, ErrorsPropagate, Run.writes]

/-- The injection and patch step leaves the delivered object as it found it. -/
theorem injectAndPatch_delivered_view (env : Env) (mem : Mem) (d init : Deployment)
    (c : config) (hc : d.Containers.WF mem.conts) (hv : d.Volumes.WF mem.vols) :
    (injectAndPatch env mem d init c).mem.view d = mem.view d := by
  have h := view_after_append_orig mem d c hc hv
  unfold injectAndPatch
  simp only []
  split
  · exact h
  · split
    · exact h
    · split
      · exact h
      · exact h

/-- The first call of the injection and patch step serialises the delivered
object as it then stands in memory. -/
theorem injectAndPatch_first_call (env : Env) (mem : Mem) (d init : Deployment)
    (c : config) (hc : d.Containers.WF mem.conts) (hv : d.Volumes.WF mem.vols) :
    (injectAndPatch env mem d init c).trace.head? = some (.marshal .oldData (mem.view d)) := by
  have h := view_after_append_orig mem d c hc hv
  unfold injectAndPatch
  simp only []
  split
  · simp only [List.head?_cons, h]
  · split
    · simp only [List.head?_cons, h]
    · split
      · simp only [List.head?_cons, h]
      · simp only [List.head?_cons, h]

/-! ## The claims -/

/-- C1 (ownership invariant).  When the delivered deployment has no
Initializers attribute, or its pending queue is non-empty and the name at its
head is not `initializerName`, `initializeDeployment` returns nil, makes no call
at all (so neither `Update` nor `Patch`), builds no desired object and leaves
the memory as it was. -/
theorem not_owned_is_noop (fl : Flags) (env : Env) (mem : Mem) (d : Deployment) (c : config)
    (h : (mem.view d).Initializers = none ∨
      ∃ head rest result, (mem.view d).Initializers = some ⟨head :: rest, result⟩ ∧
        head.Name ≠ fl.initializerName) :
    initializeDeployment fl env mem d c
      = { outcome := .returned none, trace := [], mem := mem, initialized := none } :=
  not_owned_run fl env mem d c h

/-- Scenario C of the specification: the queue `[other, self]` is not owned. -/
theorem not_owned_is_noop_witness :
    initializeDeployment flagsDefault okEnv (memOf [⟨"other"⟩, ⟨selfName⟩]) (deployOf 2) sidecar
      = { outcome := .returned none, trace := [],
          mem := memOf [⟨"other"⟩, ⟨selfName⟩], initialized := none } :=
  not_owned_is_noop flagsDefault okEnv (memOf [⟨"other"⟩, ⟨selfName⟩]) (deployOf 2) sidecar
    (Or.inr ⟨⟨"other"⟩, [⟨selfName⟩], none, by decide, by decide⟩)

/-- C2 (empty queue).  With a present Initializers attribute whose Pending list
is empty, the call does not return: indexing `Pending[0]` panics, before any
call to the cluster. -/
theorem empty_pending_panics (fl : Flags) (env : Env) (mem : Mem) (d : Deployment)
    (c : config) (result : Option String)
    (h : (mem.view d).Initializers = some ⟨[], result⟩) :
    initializeDeployment fl env mem d c
      = { outcome := .panicked, trace := [], mem := mem, initialized := none } := by
  obtain ⟨ini, hini, hread, -⟩ := pending_of_view mem d _ _ h
  have hidx : mem.inits.index ini.Pending 0 = none := by
    rw [index_zero_eq_head, hread]; rfl
  simp [initializeDeployment, hini, hidx]

/-- The failing input of C2: Initializers present, Pending of length 0. -/
theorem empty_pending_panics_witness :
    (initializeDeployment flagsDefault okEnv (memOf []) (deployOf 0) sidecar).outcome
      = .panicked := by
  rw [empty_pending_panics flagsDefault okEnv (memOf []) (deployOf 0) sidecar none (by decide)]

/-- C3 (order preservation).  For an owned deployment whose queue has at least
two entries, the desired deployment carries the delivered queue without its
first entry, the others in their order (and the same Result); this desired
deployment is the document handed to `Update` or serialised as `newData`,
unless serialising the delivered object failed first. -/
theorem pending_order_preserved (fl : Flags) (env : Env) (mem : Mem) (d : Deployment)
    (c : config) (head second : Initializer) (rest : List Initializer)
    (result : Option String) (hwf : d.WF mem)
    (hq : (mem.view d).Initializers = some ⟨head :: second :: rest, result⟩)
    (hown : head.Name = fl.initializerName) :
    ∃ doc, (initializeDeployment fl env mem d c).desired = some doc
      ∧ doc.Initializers = some ⟨second :: rest, result⟩
      ∧ ((initializeDeployment fl env mem d c).submitted = [doc]
        ∨ ((initializeDeployment fl env mem d c).submitted = []
          ∧ ∃ old e, (initializeDeployment fl env mem d c).trace = [.marshal .oldData old]
              ∧ env.marshal old = .error e)) := by
  obtain ⟨hd, hs⟩ := owned_desired fl env mem d c head (second :: rest) result hwf hq hown
  refine ⟨_, hd, ?_, hs⟩
  split <;> simp [dequeued]

/-- Scenario A of the specification: queue `[self, B]`, annotation not required. -/
theorem pending_order_preserved_witness :
    ∃ doc, (initializeDeployment flagsDefault okEnv (memOf [⟨selfName⟩, ⟨"B"⟩]) (deployOf 2)
        sidecar).desired = some doc
      ∧ doc.Initializers = some ⟨[⟨"B"⟩], none⟩
      ∧ ((initializeDeployment flagsDefault okEnv (memOf [⟨selfName⟩, ⟨"B"⟩]) (deployOf 2)
          sidecar).submitted = [doc]
        ∨ ((initializeDeployment flagsDefault okEnv (memOf [⟨selfName⟩, ⟨"B"⟩]) (deployOf 2)
            sidecar).submitted = []
          ∧ ∃ old e, (initializeDeployment flagsDefault okEnv (memOf [⟨selfName⟩, ⟨"B"⟩])
              (deployOf 2) sidecar).trace = [.marshal .oldData old]
              ∧ okEnv.marshal old = .error e)) :=
  pending_order_preserved flagsDefault okEnv (memOf [⟨selfName⟩, ⟨"B"⟩]) (deployOf 2) sidecar
    ⟨selfName⟩ ⟨"B"⟩ [] none (by decide) (by decide) (by decide)

/-- C4 (null, not empty).  For an owned deployment whose queue is exactly
`[initializerName]`, the desired deployment has no Initializers attribute at
all, whatever the gating flag and the annotations are; this desired deployment
is the document handed to `Update` or serialised as `newData`. -/
theorem last_initializer_leaves_absent (fl : Flags) (env : Env) (mem : Mem)
    (d : Deployment) (c : config) (head : Initializer) (result : Option String)
    (hwf : d.WF mem)
    (hq : (mem.view d).Initializers = some ⟨[head], result⟩)
    (hown : head.Name = fl.initializerName) :
    ∃ doc, (initializeDeployment fl env mem d c).desired = some doc
      ∧ doc.Initializers = none
      ∧ ((initializeDeployment fl env mem d c).submitted = [doc]
        ∨ ((initializeDeployment fl env mem d c).submitted = []
          ∧ ∃ old e, (initializeDeployment fl env mem d c).trace = [.marshal .oldData old]
              ∧ env.marshal old = .error e)) := by
  obtain ⟨hd, hs⟩ := owned_desired fl env mem d c head [] result hwf hq hown
  refine ⟨_, hd, ?_, hs⟩
  split <;> simp [dequeued]

/-- The queue `[self]` on the inject path. -/
theorem last_initializer_leaves_absent_witness :
    ∃ doc, (initializeDeployment flagsDefault okEnv (memOf [⟨selfName⟩]) (deployOf 1)
        sidecar).desired = some doc
      ∧ doc.Initializers = none
      ∧ ((initializeDeployment flagsDefault okEnv (memOf [⟨selfName⟩]) (deployOf 1)
          sidecar).submitted = [doc]
        ∨ ((initializeDeployment flagsDefault okEnv (memOf [⟨selfName⟩]) (deployOf 1)
            sidecar).submitted = []
          ∧ ∃ old e, (initializeDeployment flagsDefault okEnv (memOf [⟨selfName⟩])
              (deployOf 1) sidecar).trace = [.marshal .oldData old]
              ∧ okEnv.marshal old = .error e)) :=
  last_initializer_leaves_absent flagsDefault okEnv (memOf [⟨selfName⟩]) (deployOf 1) sidecar
    ⟨selfName⟩ none (by decide) (by decide) (by decide)

/-- C5 (gating skip).  For an owned deployment, with `requireAnnotation` set and
the annotation key missing from the annotation map, the only call made is one
`Update` of the desired deployment; that deployment is the delivered one with
nothing but the Initializers attribute changed, so its containers and volumes
are the delivered ones; for the queue `[self]` the attribute is absent; and the
result is the same for every sidecar configuration. -/
theorem gated_skip_changes_queue_only (fl : Flags) (env : Env) (mem : Mem) (d : Deployment)
    (c : config) (head : Initializer) (rest : List Initializer) (result : Option String)
    (hwf : d.WF mem)
    (hq : (mem.view d).Initializers = some ⟨head :: rest, result⟩)
    (hown : head.Name = fl.initializerName)
    (hreq : fl.requireAnnotation = true)
    (hann : d.Annotations.lookup fl.annotation = none) :
    ∃ doc, (initializeDeployment fl env mem d c).desired = some doc
      ∧ (initializeDeployment fl env mem d c).trace = [.update d.Namespace doc]
      ∧ doc = { mem.view d with
          Initializers := if rest = [] then none else some ⟨rest, result⟩ }
      ∧ doc.Containers = (mem.view d).Containers
      ∧ doc.Volumes = (mem.view d).Volumes
      ∧ (rest = [] → doc.Initializers = none)
      ∧ ∀ c2 : config,
          initializeDeployment fl env mem d c2 = initializeDeployment fl env mem d c := by
  obtain ⟨mem2, init, hview, -, -, -, -, -, hrun⟩ := owned_run fl mem d head rest result hwf hq hown
  have hg : fl.requireAnnotation = true ∧ d.Annotations.lookup fl.annotation = none :=
    ⟨hreq, hann⟩
  refine ⟨_, ?_, ?_, rfl, rfl, rfl, ?_, ?_⟩
  · rw [hrun env c]
    simp only [hg, and_self, if_true, Run.desired, Option.map_some', hview, dequeued]
  · rw [hrun env c]
    simp only [hg, and_self, if_true, hview, dequeued]
  · intro hr
    simp [hr]
  · intro c2
    rw [hrun env c2, hrun env c]
    simp only [hg, and_self, if_true]

/-- Scenario B of the specification: queue `[self]`, gating required, annotation
missing. -/
theorem gated_skip_changes_queue_only_witness :
    ∃ doc, (initializeDeployment flagsGated okEnv (memOf [⟨selfName⟩]) (deployOf 1)
        sidecar).desired = some doc
      ∧ (initializeDeployment flagsGated okEnv (memOf [⟨selfName⟩]) (deployOf 1)
        sidecar).trace = [.update (deployOf 1).Namespace doc]
      ∧ doc = { (memOf [⟨selfName⟩]).view (deployOf 1) with
          Initializers := if ([] : List Initializer) = [] then none else some ⟨[], none⟩ }
      ∧ doc.Containers = ((memOf [⟨selfName⟩]).view (deployOf 1)).Containers
      ∧ doc.Volumes = ((memOf [⟨selfName⟩]).view (deployOf 1)).Volumes
      ∧ (([] : List Initializer) = [] → doc.Initializers = none)
      ∧ ∀ c2 : config,
          initializeDeployment flagsGated okEnv (memOf [⟨selfName⟩]) (deployOf 1) c2
            = initializeDeployment flagsGated okEnv (memOf [⟨selfName⟩]) (deployOf 1) sidecar :=
  gated_skip_changes_queue_only flagsGated okEnv (memOf [⟨selfName⟩]) (deployOf 1) sidecar
    ⟨selfName⟩ [] none (by decide) (by decide) (by decide) (by decide) (by decide)

/-- C6 (injection ordering).  For an owned deployment, when `requireAnnotation`
is off or the annotation key is in the annotation map (with any value), the
desired deployment has the delivered containers followed by the configured
ones, and the delivered volumes followed by the configured ones; this desired
deployment is the document serialised as `newData`. -/
theorem injection_appends_sidecar (fl : Flags) (env : Env) (mem : Mem) (d : Deployment)
    (c : config) (head : Initializer) (rest : List Initializer) (result : Option String)
    (hwf : d.WF mem)
    (hq : (mem.view d).Initializers = some ⟨head :: rest, result⟩)
    (hown : head.Name = fl.initializerName)
    (hinj : fl.requireAnnotation = false ∨ ∃ v, d.Annotations.lookup fl.annotation = some v) :
    ∃ doc, (initializeDeployment fl env mem d c).desired = some doc
      ∧ doc.Containers = (mem.view d).Containers ++ c.Containers
      ∧ doc.Volumes = (mem.view d).Volumes ++ c.Volumes
      ∧ doc.Containers.length = (mem.view d).Containers.length + c.Containers.length
      ∧ doc.Volumes.length = (mem.view d).Volumes.length + c.Volumes.length
      ∧ ((initializeDeployment fl env mem d c).submitted = [doc]
        ∨ ((initializeDeployment fl env mem d c).submitted = []
          ∧ ∃ old e, (initializeDeployment fl env mem d c).trace = [.marshal .oldData old]
              ∧ env.marshal old = .error e)) := by
  obtain ⟨hd, hs⟩ := owned_desired fl env mem d c head rest result hwf hq hown
  have hg : ¬ (fl.requireAnnotation = true ∧ d.Annotations.lookup fl.annotation = none) := by
    rintro ⟨h1, h2⟩
    rcases hinj with h | ⟨v, h⟩
    · rw [h] at h1; exact Bool.noConfusion h1
    · rw [h] at h2; exact Option.noConfusion h2
  simp only [hg, if_false] at hd hs
  exact ⟨_, hd, rfl, rfl, by simp, by simp, hs⟩

/-- Gating on, the annotation present with the empty string as its value. -/
theorem injection_appends_sidecar_witness :
    ∃ doc, (initializeDeployment flagsGated okEnv (memOf [⟨selfName⟩, ⟨"B"⟩])
        (deployAnnotated 2) sidecar).desired = some doc
      ∧ doc.Containers
          = ((memOf [⟨selfName⟩, ⟨"B"⟩]).view (deployAnnotated 2)).Containers ++ sidecar.Containers
      ∧ doc.Volumes
          = ((memOf [⟨selfName⟩, ⟨"B"⟩]).view (deployAnnotated 2)).Volumes ++ sidecar.Volumes
      ∧ doc.Containers.length
          = ((memOf [⟨selfName⟩, ⟨"B"⟩]).view (deployAnnotated 2)).Containers.length
            + sidecar.Containers.length
      ∧ doc.Volumes.length
          = ((memOf [⟨selfName⟩, ⟨"B"⟩]).view (deployAnnotated 2)).Volumes.length
            + sidecar.Volumes.length
      ∧ ((initializeDeployment flagsGated okEnv (memOf [⟨selfName⟩, ⟨"B"⟩])
          (deployAnnotated 2) sidecar).submitted = [doc]
        ∨ ((initializeDeployment flagsGated okEnv (memOf [⟨selfName⟩, ⟨"B"⟩])
            (deployAnnotated 2) sidecar).submitted = []
          ∧ ∃ old e, (initializeDeployment flagsGated okEnv (memOf [⟨selfName⟩, ⟨"B"⟩])
              (deployAnnotated 2) sidecar).trace = [.marshal .oldData old]
              ∧ okEnv.marshal old = .error e)) :=
  injection_appends_sidecar flagsGated okEnv (memOf [⟨selfName⟩, ⟨"B"⟩]) (deployAnnotated 2)
    sidecar ⟨selfName⟩ [⟨"B"⟩] none (by decide) (by decide) (by decide)
    (Or.inr ⟨"", by decide⟩)

/-- C7 (read-only snapshot).  For an owned deployment whose queue has at least
two entries, the delivered object is overwritten in place: after the call its
queue reads the old queue shifted left by one with the last entry repeated
(`[self, B]` becomes `[B, B]`); every other field, containers and volumes
included, reads as before. -/
theorem delivered_queue_overwritten (fl : Flags) (env : Env) (mem : Mem) (d : Deployment)
    (c : config) (head second : Initializer) (rest : List Initializer)
    (result : Option String) (hwf : d.WF mem)
    (hq : (mem.view d).Initializers = some ⟨head :: second :: rest, result⟩)
    (hown : head.Name = fl.initializerName) :
    (initializeDeployment fl env mem d c).mem.view d
      = { mem.view d with
          Initializers := some
            ⟨second :: rest ++ [(second :: rest).getLast (List.cons_ne_nil second rest)],
             result⟩ } := by
  obtain ⟨mem2, init, -, hc, hv, hwc, hwv, hdel, hrun⟩ :=
    owned_run fl mem d head (second :: rest) result hwf hq hown
  have hlast : (head :: second :: rest).drop (second :: rest).length
      = [(second :: rest).getLast (List.cons_ne_nil second rest)] := by
    have := drop_length_pred (second :: rest) (List.cons_ne_nil second rest)
    simpa using this
  rw [hlast] at hdel
  have hview2 := hdel
  rw [hrun env c]
  by_cases hg : fl.requireAnnotation = true ∧ d.Annotations.lookup fl.annotation = none
  · simp only [hg, and_self, if_true]
    exact hview2
  · simp only [hg, if_false]
    rw [injectAndPatch_delivered_view env mem2 d init c hwc hwv]
    exact hview2

/-- The failing input of C7: the queue `[self, B]` reads `[B, B]` after the
call, and the queue of the desired object is a slice of the delivered object's
own backing array. -/
theorem delivered_queue_overwritten_witness :
    ((memOf [⟨selfName⟩, ⟨"B"⟩]).view (deployOf 2)).Initializers
        = some ⟨[⟨selfName⟩, ⟨"B"⟩], none⟩
    ∧ ((initializeDeployment flagsDefault okEnv (memOf [⟨selfName⟩, ⟨"B"⟩]) (deployOf 2)
          sidecar).mem.view (deployOf 2)).Initializers
        = some ⟨[⟨"B"⟩, ⟨"B"⟩], none⟩
    ∧ ((initializeDeployment flagsDefault okEnv (memOf [⟨selfName⟩, ⟨"B"⟩]) (deployOf 2)
          sidecar).initialized.bind fun i => i.Initializers.map fun p => p.Pending.arr)
        = (deployOf 2).Initializers.map fun p => p.Pending.arr := by
  refine ⟨by decide, ?_, by decide⟩
  rw [delivered_queue_overwritten flagsDefault okEnv (memOf [⟨selfName⟩, ⟨"B"⟩]) (deployOf 2)
    sidecar ⟨selfName⟩ ⟨"B"⟩ [] none (by decide) (by decide) (by decide)]
  rfl

/-- C9 (diff inputs).  For an owned deployment on the inject path whose queue
has at least two entries, the first call made serialises, as the old document
of the patch, the delivered object after its queue has been overwritten: the
old queue shifted left by one with the last entry repeated, not the queue as
delivered. -/
theorem old_document_serialised_after_overwrite (fl : Flags) (env : Env) (mem : Mem)
    (d : Deployment) (c : config) (head second : Initializer) (rest : List Initializer)
    (result : Option String) (hwf : d.WF mem)
    (hq : (mem.view d).Initializers = some ⟨head :: second :: rest, result⟩)
    (hown : head.Name = fl.initializerName)
    (hinj : fl.requireAnnotation = false ∨ ∃ v, d.Annotations.lookup fl.annotation = some v) :
    (initializeDeployment fl env mem d c).trace.head?
      = some (.marshal .oldData { mem.view d with
          Initializers := some
            ⟨second :: rest ++ [(second :: rest).getLast (List.cons_ne_nil second rest)],
             result⟩ }) := by
  obtain ⟨mem2, init, -, -, -, hwc, hwv, hdel, hrun⟩ :=
    owned_run fl mem d head (second :: rest) result hwf hq hown
  have hlast : (head :: second :: rest).drop (second :: rest).length
      = [(second :: rest).getLast (List.cons_ne_nil second rest)] := by
    have := drop_length_pred (second :: rest) (List.cons_ne_nil second rest)
    simpa using this
  rw [hlast] at hdel
  have hg : ¬ (fl.requireAnnotation = true ∧ d.Annotations.lookup fl.annotation = none) := by
    rintro ⟨h1, h2⟩
    rcases hinj with h | ⟨v, h⟩
    · rw [h] at h1; exact Bool.noConfusion h1
    · rw [h] at h2; exact Option.noConfusion h2
  rw [hrun env c]
  simp only [hg, if_false]
  rw [injectAndPatch_first_call env mem2 d init c hwc hwv, hdel]

/-- The failing input of C9: at the queue `[self, B]` the old document carries
`[B, B]` and the new document `[B]`. -/
theorem old_document_serialised_after_overwrite_witness :
    (initializeDeployment flagsDefault okEnv (memOf [⟨selfName⟩, ⟨"B"⟩]) (deployOf 2)
        sidecar).trace.head?
      = some (.marshal .oldData
           { Name := "web", Namespace := "default"
             Initializers := some ⟨[⟨"B"⟩, ⟨"B"⟩], none⟩
             Annotations := []
             Containers := [⟨"app", "app:1"⟩], Volumes := [⟨"data"⟩], Other := "replicas=1" })
    ∧ (initializeDeployment flagsDefault okEnv (memOf [⟨selfName⟩, ⟨"B"⟩]) (deployOf 2)
        sidecar).trace
      = [.marshal .oldData
           { Name := "web", Namespace := "default"
             Initializers := some ⟨[⟨"B"⟩, ⟨"B"⟩], none⟩
             Annotations := []
             Containers := [⟨"app", "app:1"⟩], Volumes := [⟨"data"⟩], Other := "replicas=1" },
         .marshal .newData
           { Name := "web", Namespace := "default"
             Initializers := some ⟨[⟨"B"⟩], none⟩
             Annotations := []
             Containers := [⟨"app", "app:1"⟩, ⟨"envoy", "envoy:1"⟩]
             Volumes := [⟨"data"⟩, ⟨"envoy-conf"⟩], Other := "replicas=1" },
         .createTwoWayMergePatch "doc" "doc",
         .patch "default" "web" StrategicMergePatchType "patch"] := by
  refine ⟨?_, by decide⟩
  rw [old_document_serialised_after_overwrite flagsDefault okEnv (memOf [⟨selfName⟩, ⟨"B"⟩])
    (deployOf 2) sidecar ⟨selfName⟩ ⟨"B"⟩ [] none (by decide) (by decide) (by decide)
    (Or.inl (by decide))]
  rfl

/-- C8, as stated, fails: on the gated-skip path (queue `[self]`, gating
required, annotation missing) the single write is a full-object `Update`
carrying the whole desired deployment, not a patch. -/
theorem gated_skip_write_is_update :
    (initializeDeployment flagsGated okEnv (memOf [⟨selfName⟩]) (deployOf 1) sidecar).writes
      = [.update "default"
           { Name := "web", Namespace := "default", Initializers := none, Annotations := []
             Containers := [⟨"app", "app:1"⟩], Volumes := [⟨"data"⟩], Other := "replicas=1" }] := by
  decide

/-- C8, amended.  For an owned deployment at most one write is issued.  On the
gated-skip path it is a full-object `Update` carrying the whole desired
deployment, and it is the only call.  On the inject path no `Update` is made:
either a step before the write failed and nothing is written, or the one write
is a strategic merge `Patch` on the deployment's namespace and name whose body
is what `CreateTwoWayMergePatch` returned for the serialised delivered object
and the serialised desired deployment. -/
theorem owned_write_is_update_or_patch (fl : Flags) (env : Env) (mem : Mem)
    (d : Deployment) (c : config) (head : Initializer) (rest : List Initializer)
    (result : Option String) (hwf : d.WF mem)
    (hq : (mem.view d).Initializers = some ⟨head :: rest, result⟩)
    (hown : head.Name = fl.initializerName) :
    (initializeDeployment fl env mem d c).writes.length ≤ 1
    ∧ (fl.requireAnnotation = true ∧ d.Annotations.lookup fl.annotation = none →
        ∃ doc, (initializeDeployment fl env mem d c).desired = some doc
          ∧ (initializeDeployment fl env mem d c).trace = [.update d.Namespace doc])
    ∧ (¬ (fl.requireAnnotation = true ∧ d.Annotations.lookup fl.annotation = none) →
        (∀ ev ∈ (initializeDeployment fl env mem d c).trace, ∀ ns doc, ev ≠ .update ns doc)
        ∧ (((initializeDeployment fl env mem d c).writes = []
            ∧ ∃ e, (initializeDeployment fl env mem d c).outcome = .returned (some e))
          ∨ ∃ newDoc oldData newData patchBytes,
              (initializeDeployment fl env mem d c).desired = some newDoc
              ∧ env.marshal ((initializeDeployment fl env mem d c).mem.view d) = .ok oldData
              ∧ env.marshal newDoc = .ok newData
              ∧ env.createTwoWayMergePatch oldData newData = .ok patchBytes
              ∧ (initializeDeployment fl env mem d c).writes
                  = [.patch d.Namespace d.Name StrategicMergePatchType patchBytes])) := by
  obtain ⟨mem2, init, -, -, -, -, -, -, hrun⟩ := owned_run fl mem d head rest result hwf hq hown
  refine ⟨(run_errors fl env mem d c).2.2.2, ?_, ?_⟩
  · intro hg
    rw [hrun env c]
    simp only [hg, and_self, if_true]
    exact ⟨_, rfl, rfl⟩
  · intro hg
    rw [hrun env c]
    simp only [hg, if_false]
    exact injectAndPatch_writes env mem2 d init c

/-- The inject path at the queue `[self]`: the one write is the patch. -/
theorem owned_write_is_update_or_patch_witness :
    (initializeDeployment flagsDefault okEnv (memOf [⟨selfName⟩]) (deployOf 1) sidecar).writes
      = [.patch "default" "web" StrategicMergePatchType "patch"] := by
  have h := (owned_write_is_update_or_patch flagsDefault okEnv (memOf [⟨selfName⟩])
    (deployOf 1) sidecar ⟨selfName⟩ [] none (by decide) (by decide) (by decide)).2.2
    (by decide)
  rcases h.2 with ⟨hw, -⟩ | ⟨newDoc, oldData, newData, patchBytes, -, -, -, hp, hw⟩
  · exact absurd hw (by decide)
  · rw [hw]
    simp only [okEnv, Except.ok.injEq] at hp
    rw [← hp]
    rfl

/-- C10 (error propagation).  For every input, `initializeDeployment` returns a
non-nil error exactly when a call it made (serialising either object, building
the patch, `Update`, `Patch`) failed; the error returned is the error of the
last call made, every call before it succeeded and none of them was a write;
when the write made succeeds nil is returned; at most one write is made; and
with no Initializers attribute, or a foreign name at the head of the queue, nil
is returned with no call made.  But a deployment whose Initializers attribute
is present with an empty Pending list, which is not owned either, does not get
nil: the call panics at `pendingInitializers[0]`, with no call made and nothing
returned. -/
theorem error_propagation (fl : Flags) (env : Env) (mem : Mem) (d : Deployment)
    (c : config) :
    ((∃ e, (initializeDeployment fl env mem d c).outcome = .returned (some e))
        ↔ ∃ ev ∈ (initializeDeployment fl env mem d c).trace, env.errorOf ev ≠ none)
    ∧ (∀ e, (initializeDeployment fl env mem d c).outcome = .returned (some e) →
        ∃ pre ev, (initializeDeployment fl env mem d c).trace = pre ++ [ev]
          ∧ env.errorOf ev = some e
          ∧ ∀ x ∈ pre, env.errorOf x = none ∧ x.isWrite = false)
    ∧ (∀ ev ∈ (initializeDeployment fl env mem d c).trace, ev.isWrite = true →
        env.errorOf ev = none →
        (initializeDeployment fl env mem d c).outcome = .returned none)
    ∧ (initializeDeployment fl env mem d c).writes.length ≤ 1
    ∧ (((mem.view d).Initializers = none ∨
        ∃ head rest result, (mem.view d).Initializers = some ⟨head :: rest, result⟩ ∧
          head.Name ≠ fl.initializerName) →
        (initializeDeployment fl env mem d c).outcome = .returned none
          ∧ (initializeDeployment fl env mem d c).trace = [])
    ∧ (∀ result, (mem.view d).Initializers = some ⟨[], result⟩ →
        (initializeDeployment fl env mem d c).outcome = .panicked
          ∧ (initializeDeployment fl env mem d c).outcome ≠ .returned none
          ∧ (initializeDeployment fl env mem d c).trace = []) := by
  obtain ⟨h1, h2, h3, h4⟩ := run_errors fl env mem d c
  refine ⟨h1, h2, h3, h4, ?_, ?_⟩
  · intro h
    rw [not_owned_run fl env mem d c h]
    exact ⟨rfl, rfl⟩
  · intro result h
    obtain ⟨ini, hini, hread, -⟩ := pending_of_view mem d _ _ h
    have hidx : mem.inits.index ini.Pending 0 = none := by
      rw [index_zero_eq_head, hread]; rfl
    have hrun : initializeDeployment fl env mem d c
        = { outcome := .panicked, trace := [], mem := mem, initialized := none } := by
      simp [initializeDeployment, hini, hidx]
    rw [hrun]
    exact ⟨rfl, fun hne => Outcome.noConfusion hne, rfl⟩

/-- The failing input of C10: Initializers present with an empty Pending list,
every collaborator succeeding; the call panics instead of returning nil.  Next
to it, a rejected patch: the error of the cluster is returned. -/
theorem error_propagation_witness :
    ((initializeDeployment flagsDefault okEnv (memOf []) (deployOf 0) sidecar).outcome
        = .panicked
      ∧ (initializeDeployment flagsDefault okEnv (memOf []) (deployOf 0) sidecar).outcome
        ≠ .returned none
      ∧ (initializeDeployment flagsDefault okEnv (memOf []) (deployOf 0) sidecar).trace = [])
    ∧ ∃ e, (initializeDeployment flagsDefault rejectEnv (memOf [⟨selfName⟩]) (deployOf 1)
        sidecar).outcome = .returned (some e) :=
  ⟨(error_propagation flagsDefault okEnv (memOf []) (deployOf 0) sidecar).2.2.2.2.2
      none (by decide),
   (error_propagation flagsDefault rejectEnv (memOf [⟨selfName⟩]) (deployOf 1) sidecar).1.mpr
      ⟨.patch "default" "web" StrategicMergePatchType "patch", by decide, by decide⟩⟩

end EnvoyInitializer
